import Mathlib

/-!
Verification development for the `discretionary_engine` repository.

The Rust sources (`src/positions.rs`, `src/protocols/trailing_stop.rs`,
`src/api/binance.rs`, `src/main.rs`) are shallowly embedded below: pure
fragments become Lean functions, the stateful reconciliation loop becomes
explicit state passing, `f64` arithmetic is modelled by exact rationals,
and panics (failed `assert!`) become `Option.none`.  Types that live in
modules absent from the source tree (`crate::api::order_types`,
`crate::protocols` mod) are modelled from the specification and marked as
such in their doc comments.
-/

namespace DiscEngine

/-- Position side, from `v_utils::trades::Side` as used throughout `positions.rs`. -/
inductive Side
  | buy
  | sell
deriving DecidableEq, Repr

/-- Exchange market, from `src/api` usage (`Market::BinanceFutures` etc.). -/
inductive Market
  | binanceFutures
  | binanceSpot
  | binanceMargin
deriving DecidableEq, Repr

/-- Trading symbol, from `TrailingStopCache::build` (`Symbol { base, quote, market }`). -/
structure Symbol where
  base : String
  quote : String
  market : Market
deriving DecidableEq, Repr

/-- `PositionSpec` from `src/positions.rs`: `{ asset, side, size_usdt }`. -/
structure PositionSpec where
  asset : String
  side : Side
  size_usdt : ℚ
deriving DecidableEq, Repr

/-- Modelled from the spec: `ConceptualOrder` lives in `crate::api::order_types`,
which is absent from the source tree.  Spec section 3: a tagged union over
`{Market, Limit, StopMarket}`, each carrying `{symbol, side, price (absent for
Market), notional}` and an owning-strategy tag (here `tag`). -/
inductive ConceptualOrder
  | market (tag : ℕ) (symbol : Symbol) (side : Side) (notional : ℚ)
  | limit (tag : ℕ) (symbol : Symbol) (side : Side) (price : ℚ) (notional : ℚ)
  | stopMarket (tag : ℕ) (symbol : Symbol) (side : Side) (price : ℚ) (notional : ℚ)
deriving DecidableEq, Repr

/-- Modelled from the spec: `ConceptualOrder::notional()` from the absent
`order_types` module, as used by `update_target_orders` in `positions.rs`:
the order's notional value. -/
def ConceptualOrder.notional : ConceptualOrder → ℚ
  | .market _ _ _ n => n
  | .limit _ _ _ _ n => n
  | .stopMarket _ _ _ _ n => n

/-- Modelled from the spec: `ConceptualOrder::price()` from the absent
`order_types` module; the price is absent for market orders. -/
def ConceptualOrder.price : ConceptualOrder → Option ℚ
  | .market _ _ _ _ => none
  | .limit _ _ _ p _ => some p
  | .stopMarket _ _ _ p _ => some p

/-- Modelled from the spec: `ConceptualOrder::cut_size(new_notional)` from the
absent `order_types` module, as used for clipping in `update_target_orders`:
replaces the order's notional, keeping every other field. -/
def ConceptualOrder.cut_size : ConceptualOrder → ℚ → ConceptualOrder
  | .market t s sd _, n => .market t s sd n
  | .limit t s sd p _, n => .limit t s sd p n
  | .stopMarket t s sd p _, n => .stopMarket t s sd p n

/-- Kind discriminator matching `ConceptualOrder::Market(_)` patterns. -/
def ConceptualOrder.isMarket : ConceptualOrder → Bool
  | .market _ _ _ _ => true
  | _ => false

/-- Kind discriminator matching `ConceptualOrder::StopMarket(_)` patterns. -/
def ConceptualOrder.isStop : ConceptualOrder → Bool
  | .stopMarket _ _ _ _ _ => true
  | _ => false

/-- Kind discriminator matching `ConceptualOrder::Limit(_)` patterns. -/
def ConceptualOrder.isLimit : ConceptualOrder → Bool
  | .limit _ _ _ _ _ => true
  | _ => false

/-- Price with the `unwrap()` of `positions.rs` sorting made total; stop and
limit orders always carry a price, so the default is never consulted there. -/
def priceD (o : ConceptualOrder) : ℚ := o.price.getD 0

/-- Sum of the notionals of a list of orders. -/
def total_notional (l : List ConceptualOrder) : ℚ := (l.map ConceptualOrder.notional).sum

/-! ## Position acquisition (`PositionAcquisition::do_acquisition`) -/

/-- Rust `f64::round`: nearest integer, ties away from zero. -/
def rust_round (x : ℚ) : ℤ := if 0 ≤ x then ⌊x + 1 / 2⌋ else ⌈x - 1 / 2⌉

/-- The quantity computation of `do_acquisition` (`positions.rs` lines 51-57):
`factor = 10^quantity_precision`, `coin_quantity = size_usdt / current_price`,
`coin_quantity_adjusted = (coin_quantity * factor).round() / factor`. -/
def coin_quantity_adjusted (size_usdt current_price : ℚ) (quantity_precision : ℕ) : ℚ :=
  let factor : ℚ := 10 ^ quantity_precision
  let coin_quantity := size_usdt / current_price
  ((rust_round (coin_quantity * factor) : ℚ)) / factor

/-- `OrderStatus` from `src/api/binance.rs`. -/
inductive OrderStatus
  | new
  | partiallyFilled
  | filled
  | canceled
  | expired
  | expiredInMatch
deriving DecidableEq, Repr

/-- The two fields of `binance::FuturesPositionResponse` that the acquisition
poll loop reads: `status` and `origQty` (already parsed to a number). -/
structure FuturesPositionResponse where
  status : OrderStatus
  origQty : ℚ
deriving DecidableEq, Repr

/-- The polling loop of `do_acquisition` (`positions.rs` lines 76-83), run over
a trace of poll responses: if the status is `Filled` the loop adds `origQty` to
the acquired notional and breaks; for any other status it polls again.  `none`
means the loop is still polling after the whole trace (it never exits on a
non-`Filled` status). -/
def acquisition_poll_loop (acquired_notional : ℚ) :
    List FuturesPositionResponse → Option ℚ
  | [] => none
  | order :: rest =>
    if order.status = OrderStatus.filled then some (acquired_notional + order.origQty)
    else acquisition_poll_loop acquired_notional rest

/-! ## `TargetOrders` and `update_orders` (`positions.rs` lines 98-125) -/

/-- `TargetOrders` from `positions.rs`: running per-kind notional totals and
the accumulated order list. -/
structure TargetOrders where
  stop_orders_total_notional : ℚ
  normal_orders_total_notional : ℚ
  market_orders_total_notional : ℚ
  orders : List ConceptualOrder
deriving DecidableEq, Repr

/-- One iteration of the `for order in orders` loop of
`TargetOrders::update_orders`: add the order's notional to the matching
per-kind total and push the order. -/
def TargetOrders.add_order (t : TargetOrders) (o : ConceptualOrder) : TargetOrders :=
  let t2 :=
    match o with
    | .stopMarket _ _ _ _ _ =>
      { t with stop_orders_total_notional := t.stop_orders_total_notional + o.notional }
    | .limit _ _ _ _ _ =>
      { t with normal_orders_total_notional := t.normal_orders_total_notional + o.notional }
    | .market _ _ _ _ =>
      { t with market_orders_total_notional := t.market_orders_total_notional + o.notional }
  { t2 with orders := t2.orders ++ [o] }

/-- `TargetOrders::update_orders`: fold `add_order` over the new orders, then
send `self.orders.clone()` over the channel.  The second component is the
published list. -/
def TargetOrders.update_orders (t : TargetOrders) (orders : List ConceptualOrder) :
    TargetOrders × List ConceptualOrder :=
  let t2 := orders.foldl TargetOrders.add_order t
  (t2, t2.orders)

/-! ## Order reconciliation (`update_target_orders`, `positions.rs` lines 173-241) -/

/-- The budget trackers and output accumulator of the `update_target_orders`
closure: `left_to_target_full_notional`, `left_to_target_spot_notional`,
`left_to_target_normal_notional` and `new_target_orders`. -/
structure ReconcileState where
  left_to_target_full_notional : ℚ
  left_to_target_spot_notional : ℚ
  left_to_target_normal_notional : ℚ
  new_target_orders : List ConceptualOrder
deriving DecidableEq, Repr

/-- `compare_against` of the inner `update_target_orders` closure: the tracker
an order of each kind is checked against. -/
def compare_against (st : ReconcileState) (order : ConceptualOrder) : ℚ :=
  match order with
  | .stopMarket _ _ _ _ _ => st.left_to_target_spot_notional
  | .limit _ _ _ _ _ => st.left_to_target_normal_notional
  | .market _ _ _ _ => st.left_to_target_full_notional

/-- The tracker subtraction of the inner closure: a stop order's notional is
subtracted from the spot tracker only, a limit order's from the normal tracker
only, and a market order's from all three trackers. -/
def subtract_notional (st : ReconcileState) (order : ConceptualOrder) (notional : ℚ) :
    ReconcileState :=
  match order with
  | .stopMarket _ _ _ _ _ =>
    { st with left_to_target_spot_notional := st.left_to_target_spot_notional - notional }
  | .limit _ _ _ _ _ =>
    { st with left_to_target_normal_notional := st.left_to_target_normal_notional - notional }
  | .market _ _ _ _ =>
    { st with
      left_to_target_full_notional := st.left_to_target_full_notional - notional,
      left_to_target_spot_notional := st.left_to_target_spot_notional - notional,
      left_to_target_normal_notional := st.left_to_target_normal_notional - notional }

/-- One iteration of the inner `update_target_orders` closure (`positions.rs`
lines 190-221): read the notional, clip the order to the tracker when the
notional exceeds it, push the (possibly clipped) order, subtract the original
notional from the tracker(s), then run the two `assert!`s; a failed assertion
is a panic, modelled as `none`.  The source subtracts after matching on the
clipped order; since `cut_size` keeps the order's kind, matching on the
original order selects the same tracker. -/
def process_target_order (st : ReconcileState) (order : ConceptualOrder) :
    Option ReconcileState :=
  let notional := order.notional
  let compare := compare_against st order
  let order2 := if compare < notional then order.cut_size compare else order
  let st2 := { st with new_target_orders := st.new_target_orders ++ [order2] }
  let st3 := subtract_notional st2 order notional
  if 0 ≤ st3.left_to_target_spot_notional ∧ 0 ≤ st3.left_to_target_normal_notional then some st3
  else none

/-- The `for order in orders` loop of the inner closure over one pool; a panic
at any order aborts the whole loop. -/
def process_target_orders : ReconcileState → List ConceptualOrder → Option ReconcileState
  | st, [] => some st
  | st, order :: rest =>
    (process_target_order st order).bind fun st2 => process_target_orders st2 rest

/-- Descending price order; `sort_by(|a, b| b.price().partial_cmp(&a.price()))`. -/
def price_descending (a b : ConceptualOrder) : Prop := priceD b ≤ priceD a

/-- Ascending price order; `sort_by(|a, b| a.price().partial_cmp(&b.price()))`. -/
def price_ascending (a b : ConceptualOrder) : Prop := priceD a ≤ priceD b

instance : DecidableRel price_descending :=
  fun a b => inferInstanceAs (Decidable (priceD b ≤ priceD a))

instance : DecidableRel price_ascending :=
  fun a b => inferInstanceAs (Decidable (priceD a ≤ priceD b))

instance : IsTotal ConceptualOrder price_descending :=
  ⟨fun a b => le_total (priceD b) (priceD a)⟩

instance : IsTotal ConceptualOrder price_ascending :=
  ⟨fun a b => le_total (priceD a) (priceD b)⟩

instance : IsTrans ConceptualOrder price_descending :=
  ⟨fun _ _ _ h1 h2 => le_trans h2 h1⟩

instance : IsTrans ConceptualOrder price_ascending :=
  ⟨fun _ _ _ h1 h2 => le_trans h1 h2⟩

/-- The stop-pool sort of `update_target_orders` (`positions.rs` lines
227-236): descending by price for a Buy position, ascending for Sell.  Rust's
`sort_by` is a stable sort, modelled by the (stable) insertion sort. -/
def sort_stop_orders : Side → List ConceptualOrder → List ConceptualOrder
  | Side.buy, l => l.insertionSort price_descending
  | Side.sell, l => l.insertionSort price_ascending

/-- The limit-pool sort of `update_target_orders`: ascending by price for a
Buy position, descending for Sell. -/
def sort_limit_orders : Side → List ConceptualOrder → List ConceptualOrder
  | Side.buy, l => l.insertionSort price_ascending
  | Side.sell, l => l.insertionSort price_descending

/-- All orders of `all_requested_unrolled`, in enumeration order of the map. -/
def all_orders_of (unrolled : List (String × List ConceptualOrder)) : List ConceptualOrder :=
  (unrolled.map Prod.snd).flatten

/-- The market pool collected by the partition loop of `update_target_orders`. -/
def market_pool (unrolled : List (String × List ConceptualOrder)) : List ConceptualOrder :=
  (all_orders_of unrolled).filter ConceptualOrder.isMarket

/-- The stop pool collected by the partition loop of `update_target_orders`. -/
def stop_pool (unrolled : List (String × List ConceptualOrder)) : List ConceptualOrder :=
  (all_orders_of unrolled).filter ConceptualOrder.isStop

/-- The limit pool collected by the partition loop of `update_target_orders`. -/
def limit_pool (unrolled : List (String × List ConceptualOrder)) : List ConceptualOrder :=
  (all_orders_of unrolled).filter ConceptualOrder.isLimit

/-- The initial trackers: `left_to_target_full_notional = acquired_notional -
closed_notional`, and the spot and normal trackers start equal to it. -/
def initial_reconcile_state (acquired_notional closed_notional : ℚ) : ReconcileState :=
  { left_to_target_full_notional := acquired_notional - closed_notional,
    left_to_target_spot_notional := acquired_notional - closed_notional,
    left_to_target_normal_notional := acquired_notional - closed_notional,
    new_target_orders := [] }

/-- The outer `update_target_orders` closure (`positions.rs` lines 173-241) as
a pure pass: partition the unrolled requests into pools (in map-enumeration
order), process the market pool first, sort the stop and limit pools by the
position side, process them, and return `new_target_orders`.  `none` is the
panic of a failed `assert!`. -/
def update_target_orders (side : Side) (acquired_notional closed_notional : ℚ)
    (unrolled : List (String × List ConceptualOrder)) : Option (List ConceptualOrder) :=
  (process_target_orders (initial_reconcile_state acquired_notional closed_notional)
      (market_pool unrolled)).bind fun st1 =>
    (process_target_orders st1 (sort_stop_orders side (stop_pool unrolled))).bind fun st2 =>
      (process_target_orders st2 (sort_limit_orders side (limit_pool unrolled))).map
        ReconcileState.new_target_orders

/-- A full recompute-and-publish event as performed at the end of the
`update_target_orders` closure: run the pass, then
`target_orders.update_orders(new_target_orders)`, which appends into the
running `TargetOrders` and publishes its accumulated order list. -/
def recompute_publish (side : Side) (acquired_notional closed_notional : ℚ)
    (unrolled : List (String × List ConceptualOrder)) (target_orders : TargetOrders) :
    Option (TargetOrders × List ConceptualOrder) :=
  (update_target_orders side acquired_notional closed_notional unrolled).map
    target_orders.update_orders

/-! ## Protocols, budget splitting (`do_followup`, `update_unrolled`) -/

/-- `ProtocolType` from the absent `crate::protocols` module root; the source
uses `ProtocolType::Momentum` (`trailing_stop.rs`).  Modelled from the spec:
a pure label used for budget-sharing grouping. -/
inductive ProtocolType
  | momentum
  | other
deriving DecidableEq, Repr

/-- Modelled from the spec: a `FollowupProtocol` instance as far as budget
splitting is concerned — an identity (its spec string, the `produced_by` key)
and its `classify`/`get_subtype` label.  The enum itself lives in the absent
`crate::protocols` module root. -/
structure FollowupProtocol where
  spec_str : String
  subtype : ProtocolType
deriving DecidableEq, Repr

/-- The `counted_subtypes` map built at the top of
`PositionFollowup::do_followup` (`positions.rs` lines 139-143): how many
attached protocol instances share each subtype. -/
def counted_subtypes (protocols : List FollowupProtocol) (t : ProtocolType) : ℕ :=
  (protocols.filter fun p => p.subtype = t).length

/-- Modelled from the spec: `ConceptualOrderPercents` from the absent
`order_types` module — a conceptual order whose size is a fraction of the
controlled notional, carrying the protocol-order identity used as fill-mask
key. -/
inductive ConceptualOrderPercents
  | market (uuid : ℕ) (symbol : Symbol) (side : Side) (percent_size : ℚ)
  | limit (uuid : ℕ) (symbol : Symbol) (side : Side) (price : ℚ) (percent_size : ℚ)
  | stopMarket (uuid : ℕ) (symbol : Symbol) (side : Side) (price : ℚ) (percent_size : ℚ)
deriving DecidableEq, Repr

/-- The fill-mask key of a percent-sized sub-order. -/
def ConceptualOrderPercents.uuid : ConceptualOrderPercents → ℕ
  | .market u _ _ _ => u
  | .limit u _ _ _ _ => u
  | .stopMarket u _ _ _ _ => u

/-- The fractional size of a percent-sized sub-order. -/
def ConceptualOrderPercents.percent_size : ConceptualOrderPercents → ℚ
  | .market _ _ _ s => s
  | .limit _ _ _ _ s => s
  | .stopMarket _ _ _ _ s => s

/-- Conversion of a percent-sized sub-order to a `ConceptualOrder` with the
given concrete notional, keeping kind, symbol, side and price; the owning tag
is the sub-order's uuid. -/
def ConceptualOrderPercents.to_exact (o : ConceptualOrderPercents) (notional : ℚ) :
    ConceptualOrder :=
  match o with
  | .market u sym sd _ => .market u sym sd notional
  | .limit u sym sd p _ => .limit u sym sd p notional
  | .stopMarket u sym sd p _ => .stopMarket u sym sd p notional

/-- `ProtocolOrders` from the absent `crate::protocols` module root: the
latest batch of one producer — its identity and its percent-sized orders
(spec section 3, `ProtocolOrderBatch`). -/
structure ProtocolOrders where
  produced_by : String
  orders : List ConceptualOrderPercents
deriving DecidableEq, Repr

/-- Modelled from the spec: `ProtocolOrders::empty_mask` from the absent
`crate::protocols` module root — a fill mask with one zero entry per
sub-order. -/
def ProtocolOrders.empty_mask (po : ProtocolOrders) : List (ℕ × ℚ) :=
  po.orders.map fun o => (o.uuid, (0 : ℚ))

/-- Modelled from the spec: `ProtocolOrders::apply_mask(mask,
total_controlled_size)` from the absent `crate::protocols` module root.  Spec
section 4.3 step 1 and section 4.2: each sub-order is scaled against the
controlled notional (`percent_size * total_controlled_size`), recorded fills
reduce its remaining notional, and a fully-filled sub-order contributes zero
and is dropped from the pass. -/
def ProtocolOrders.apply_mask (po : ProtocolOrders) (mask : List (ℕ × ℚ))
    (total_controlled_size : ℚ) : List ConceptualOrder :=
  po.orders.filterMap fun o =>
    let filled := ((mask.lookup o.uuid).getD 0)
    let remaining := o.percent_size * total_controlled_size - filled
    if remaining ≤ 0 then none else some (o.to_exact remaining)

/-- The controlled-notional computation of the `update_unrolled` closure
(`positions.rs` lines 157-171): `size_multiplier = 1 / counted_subtypes[subtype]`
and `total_controlled_size = acquired_notional * size_multiplier`. -/
def total_controlled_size (protocols : List FollowupProtocol) (acquired_notional : ℚ)
    (t : ProtocolType) : ℚ :=
  acquired_notional * (1 / (counted_subtypes protocols t : ℚ))

/-- The `update_unrolled` closure for one producer: build the mask from
`empty_mask` overwritten with the recorded fills of `all_fills`, then
`apply_mask` against the producer subtype's controlled notional. -/
def update_unrolled (protocols : List FollowupProtocol) (acquired_notional : ℚ)
    (all_fills : List (ℕ × ℚ)) (protocol : FollowupProtocol) (po : ProtocolOrders) :
    List ConceptualOrder :=
  let ts := total_controlled_size protocols acquired_notional protocol.subtype
  let mask := po.empty_mask.map fun kv =>
    match all_fills.lookup kv.1 with
    | some v => (kv.1, v)
    | none => kv
  po.apply_mask mask ts

/-! ## Trailing stop (`src/protocols/trailing_stop.rs`) -/

/-- `TrailingStop` protocol parameters. -/
structure TrailingStop where
  percent : ℚ
deriving DecidableEq, Repr

/-- `TrailingStopCache` from `trailing_stop.rs`: symbol plus the running
highest (`top`) and lowest (`bottom`) observed prices. -/
structure TrailingStopCache where
  symbol : Symbol
  top : ℚ
  bottom : ℚ
deriving DecidableEq, Repr

/-- `TrailingStopCache::build` (`trailing_stop.rs` lines 90-102): the symbol is
`{asset}-USDT-BinanceFutures` and both `top` and `bottom` are seeded with the
current futures price (passed in for the external `futures_price` call). -/
def TrailingStopCache.build (position_core : PositionSpec) (current_price : ℚ) :
    TrailingStopCache :=
  { symbol := { base := position_core.asset, quote := "USDT", market := Market.binanceFutures },
    top := current_price,
    bottom := current_price }

/-- Modelled from the spec: the `StopMarketWhere` order pushed by
`TrailingStop::attach` (its type lives in the absent `order_types` module) —
a stop-market order description with symbol, side and trigger price. -/
structure StopMarketWhere where
  symbol : Symbol
  side : Side
  price : ℚ
deriving DecidableEq, Repr

/-- The body of `TrailingStop::attach` for one mark-price message
(`trailing_stop.rs` lines 28-75): on a new low, update `bottom` and — when the
position side is Sell — replace the orders with a single stop-market buy at
`price + price * percent`; on a new high, update `top` and — when the side is
Buy — replace the orders with a single stop-market sell at
`price - price * percent`. -/
def TrailingStop.handle_price (self : TrailingStop) (side : Side)
    (cache : TrailingStopCache) (orders : List StopMarketWhere) (price : ℚ) :
    TrailingStopCache × List StopMarketWhere :=
  let state1 : TrailingStopCache × List StopMarketWhere :=
    if price < cache.bottom then
      match side with
      | Side.buy => ({ cache with bottom := price }, orders)
      | Side.sell =>
        ({ cache with bottom := price },
         [{ symbol := cache.symbol, side := Side.buy, price := price + price * self.percent }])
    else (cache, orders)
  if state1.1.top < price then
    match side with
    | Side.buy =>
      ({ state1.1 with top := price },
       [{ symbol := state1.1.symbol, side := Side.sell, price := price - price * self.percent }])
    | Side.sell => ({ state1.1 with top := price }, state1.2)
  else state1

/-! ## Helper lemmas -/

lemma total_notional_nil : total_notional [] = 0 := rfl

lemma total_notional_cons (o : ConceptualOrder) (l : List ConceptualOrder) :
    total_notional (o :: l) = o.notional + total_notional l := by
  simp [total_notional]

lemma total_notional_nonneg {l : List ConceptualOrder}
    (h : ∀ o ∈ l, 0 ≤ o.notional) : 0 ≤ total_notional l := by
  induction l with
  | nil => simp [total_notional]
  | cons o rest ih =>
    rw [total_notional_cons]
    exact add_nonneg (h o (by simp)) (ih fun x hx => h x (by simp [hx]))

lemma foldl_add_order_spec : ∀ (l : List ConceptualOrder) (t : TargetOrders),
    (l.foldl TargetOrders.add_order t).orders = t.orders ++ l ∧
    (l.foldl TargetOrders.add_order t).stop_orders_total_notional
      = t.stop_orders_total_notional + total_notional (l.filter ConceptualOrder.isStop) ∧
    (l.foldl TargetOrders.add_order t).normal_orders_total_notional
      = t.normal_orders_total_notional + total_notional (l.filter ConceptualOrder.isLimit) ∧
    (l.foldl TargetOrders.add_order t).market_orders_total_notional
      = t.market_orders_total_notional + total_notional (l.filter ConceptualOrder.isMarket)
  | [], t => by simp [total_notional]
  | o :: rest, t => by
    obtain ⟨h1, h2, h3, h4⟩ := foldl_add_order_spec rest (t.add_order o)
    cases o <;>
      simp_all [TargetOrders.add_order, total_notional_cons, List.filter_cons,
        ConceptualOrder.isStop, ConceptualOrder.isLimit, ConceptualOrder.isMarket,
        ConceptualOrder.notional, List.append_assoc] <;> ring

/-! ## Claim theorems -/

/-- **C1.**  The claim states that an over-budget stop order is clipped to the
tracker's current value, leaving the tracker at exactly zero and the pool
exactly at the remaining budget; in the quoted scenario (Buy side, two stop
orders of notional 600 at prices 90 and 95, `remaining_spot = 1000`) the order
at 95 would be kept at 600 and the order at 90 clipped to 400.  The code
instead subtracts the *original* notional (600) after clipping, driving the
spot tracker to -200, so the `assert!` fails and the pass panics, producing no
target set at all: the recompute evaluates to `none` on exactly this
scenario. -/
theorem market_stop_clip_scenario_aborts :
    update_target_orders Side.buy 1000 0
      [("p",
        [ConceptualOrder.stopMarket 1 ⟨"BTC", "USDT", Market.binanceFutures⟩ Side.sell 90 600,
         ConceptualOrder.stopMarket 2 ⟨"BTC", "USDT", Market.binanceFutures⟩ Side.sell 95 600])]
      = none := by
  norm_num [update_target_orders, market_pool, stop_pool, limit_pool, all_orders_of,
    initial_reconcile_state, process_target_orders, process_target_order, compare_against,
    subtract_notional, sort_stop_orders, sort_limit_orders, List.insertionSort,
    List.orderedInsert, price_descending, price_ascending, priceD, ConceptualOrder.notional,
    ConceptualOrder.price, ConceptualOrder.cut_size, ConceptualOrder.isMarket,
    ConceptualOrder.isStop, ConceptualOrder.isLimit, Option.bind]

/-- **C2.**  The claim's scenario (`acquired_notional = 1000`, one market order
of notional 1000 and one stop order of notional 1000) expects the market order
kept at 1000 and the stop order clipped to 0 in the resulting target set.  In
the code the market order is indeed processed first and kept, and the stop
order is clipped to 0 — but the stop order's *original* notional (1000) is
then subtracted from `remaining_spot`, which becomes -1000, the `assert!`
fails, and the pass panics instead of producing the claimed set: the recompute
evaluates to `none` on exactly this scenario. -/
theorem market_first_scenario_aborts :
    update_target_orders Side.buy 1000 0
      [("p",
        [ConceptualOrder.market 1 ⟨"BTC", "USDT", Market.binanceFutures⟩ Side.buy 1000,
         ConceptualOrder.stopMarket 2 ⟨"BTC", "USDT", Market.binanceFutures⟩ Side.sell 90 1000])]
      = none := by
  norm_num [update_target_orders, market_pool, stop_pool, limit_pool, all_orders_of,
    initial_reconcile_state, process_target_orders, process_target_order, compare_against,
    subtract_notional, sort_stop_orders, sort_limit_orders, List.insertionSort,
    List.orderedInsert, price_descending, price_ascending, priceD, ConceptualOrder.notional,
    ConceptualOrder.price, ConceptualOrder.cut_size, ConceptualOrder.isMarket,
    ConceptualOrder.isStop, ConceptualOrder.isLimit, Option.bind]

/-- **C3** (counterexample).  The claim asserts that when pool notional exceeds
the remaining budget, the most price-favorable orders are kept whole and later
ones are clipped or dropped.  On a Buy position with stop orders of notional
700 at price 95 and 600 at price 90 against a budget of 1000, the pass keeps
the order at 95, clips the order at 90 — and then panics on the failed
assertion (the tracker went to -300), so no order is kept at all: the pass
evaluates to `none`, not to a clipped target set. -/
theorem sorted_clip_counterexample :
    update_target_orders Side.buy 1000 0
      [("p",
        [ConceptualOrder.stopMarket 1 ⟨"BTC", "USDT", Market.binanceFutures⟩ Side.sell 95 700,
         ConceptualOrder.stopMarket 2 ⟨"BTC", "USDT", Market.binanceFutures⟩ Side.sell 90 600])]
      = none := by
  norm_num [update_target_orders, market_pool, stop_pool, limit_pool, all_orders_of,
    initial_reconcile_state, process_target_orders, process_target_order, compare_against,
    subtract_notional, sort_stop_orders, sort_limit_orders, List.insertionSort,
    List.orderedInsert, price_descending, price_ascending, priceD, ConceptualOrder.notional,
    ConceptualOrder.price, ConceptualOrder.cut_size, ConceptualOrder.isMarket,
    ConceptualOrder.isStop, ConceptualOrder.isLimit, Option.bind]

/-- **C3** (amended).  The sorting half of the claim holds exactly as stated:
on a Buy position the stop pool is sorted descending by price and the limit
pool ascending, and for a Sell position both orderings are inverted (each sort
is a permutation of its pool).  The clipping consequence does not hold — see
the counterexample: an over-budget pool aborts the pass at the first
over-budget order instead of clipping it and continuing. -/
theorem pool_sorting_by_side (l : List ConceptualOrder) :
    List.Sorted price_descending (sort_stop_orders Side.buy l) ∧
    List.Sorted price_ascending (sort_limit_orders Side.buy l) ∧
    List.Sorted price_ascending (sort_stop_orders Side.sell l) ∧
    List.Sorted price_descending (sort_limit_orders Side.sell l) ∧
    List.Perm (sort_stop_orders Side.buy l) l ∧
    List.Perm (sort_limit_orders Side.buy l) l ∧
    List.Perm (sort_stop_orders Side.sell l) l ∧
    List.Perm (sort_limit_orders Side.sell l) l :=
  ⟨List.sorted_insertionSort price_descending l, List.sorted_insertionSort price_ascending l,
   List.sorted_insertionSort price_ascending l, List.sorted_insertionSort price_descending l,
   List.perm_insertionSort price_descending l, List.perm_insertionSort price_ascending l,
   List.perm_insertionSort price_ascending l, List.perm_insertionSort price_descending l⟩

/-- **C4** (counterexample).  Running the recompute-and-publish step twice with
identical inputs does not yield identical published values:
`TargetOrders::update_orders` appends to the running state, so the second run
publishes the pass's orders twice. -/
theorem recompute_publish_not_idempotent :
    recompute_publish Side.buy 100 0
        [("A", [ConceptualOrder.market 1 ⟨"BTC", "USDT", Market.binanceFutures⟩ Side.buy 10])]
        ⟨0, 0, 0, []⟩
      = some (⟨0, 0, 10,
          [ConceptualOrder.market 1 ⟨"BTC", "USDT", Market.binanceFutures⟩ Side.buy 10]⟩,
          [ConceptualOrder.market 1 ⟨"BTC", "USDT", Market.binanceFutures⟩ Side.buy 10]) ∧
    recompute_publish Side.buy 100 0
        [("A", [ConceptualOrder.market 1 ⟨"BTC", "USDT", Market.binanceFutures⟩ Side.buy 10])]
        ⟨0, 0, 10,
          [ConceptualOrder.market 1 ⟨"BTC", "USDT", Market.binanceFutures⟩ Side.buy 10]⟩
      = some (⟨0, 0, 20,
          [ConceptualOrder.market 1 ⟨"BTC", "USDT", Market.binanceFutures⟩ Side.buy 10,
           ConceptualOrder.market 1 ⟨"BTC", "USDT", Market.binanceFutures⟩ Side.buy 10]⟩,
          [ConceptualOrder.market 1 ⟨"BTC", "USDT", Market.binanceFutures⟩ Side.buy 10,
           ConceptualOrder.market 1 ⟨"BTC", "USDT", Market.binanceFutures⟩ Side.buy 10]) ∧
    ([ConceptualOrder.market 1 ⟨"BTC", "USDT", Market.binanceFutures⟩ Side.buy 10] :
        List ConceptualOrder)
      ≠ [ConceptualOrder.market 1 ⟨"BTC", "USDT", Market.binanceFutures⟩ Side.buy 10,
         ConceptualOrder.market 1 ⟨"BTC", "USDT", Market.binanceFutures⟩ Side.buy 10] := by
  refine ⟨?_, ?_, by decide⟩ <;>
  norm_num [update_target_orders, market_pool, stop_pool, limit_pool, all_orders_of,
    initial_reconcile_state, process_target_orders, process_target_order, compare_against,
    subtract_notional, sort_stop_orders, sort_limit_orders, List.insertionSort,
    List.orderedInsert, price_descending, price_ascending, priceD, ConceptualOrder.notional,
    ConceptualOrder.price, ConceptualOrder.cut_size, ConceptualOrder.isMarket,
    ConceptualOrder.isStop, ConceptualOrder.isLimit, Option.bind,
    recompute_publish, TargetOrders.update_orders, TargetOrders.add_order, Option.map]

/-- **C4** (amended).  The pass itself (`update_target_orders`) is a pure
function of its inputs, but the published value accumulates: publishing the
same pass output from state `t` yields `t.orders ++ new`, and publishing it
again from the resulting state yields `(t.orders ++ new) ++ new` — the first
published list extended by the pass's orders once more, not an identical
value. -/
theorem recompute_publish_accumulates (side : Side) (acquired_notional closed_notional : ℚ)
    (unrolled : List (String × List ConceptualOrder)) (t : TargetOrders)
    (new1 : List ConceptualOrder)
    (h : update_target_orders side acquired_notional closed_notional unrolled = some new1) :
    (recompute_publish side acquired_notional closed_notional unrolled t).map Prod.snd
      = some (t.orders ++ new1) ∧
    ∀ t1 p1,
      recompute_publish side acquired_notional closed_notional unrolled t = some (t1, p1) →
      (recompute_publish side acquired_notional closed_notional unrolled t1).map Prod.snd
        = some (p1 ++ new1) := by
  have hup : ∀ t2 : TargetOrders, (t2.update_orders new1).2 = t2.orders ++ new1 := by
    intro t2
    exact (foldl_add_order_spec new1 t2).1
  have hup1 : ∀ t2 : TargetOrders, (t2.update_orders new1).1.orders = t2.orders ++ new1 := by
    intro t2
    exact (foldl_add_order_spec new1 t2).1
  constructor
  · simp [recompute_publish, h, hup]
  · intro t1 p1 h1
    rw [recompute_publish, h] at h1
    simp only [Option.map_some'] at h1
    have h2 : t.update_orders new1 = (t1, p1) := Option.some.inj h1
    have ht1 : t1 = (t.update_orders new1).1 := by rw [h2]
    have hp1 : p1 = (t.update_orders new1).2 := by rw [h2]
    rw [recompute_publish, h]
    simp only [Option.map_some', Option.some.injEq]
    rw [hup t1, ht1, hup1 t, hp1, hup t]

/-- **C7** (counterexample).  The claim states that a terminal poll status
other than `Filled` (for example `Canceled`) makes `do_acquisition` fail with
a fatal error and stop immediately.  In the code the poll loop reacts only to
`Filled`: after seeing `Canceled` it simply polls again, and here completes
the acquisition on the next response — no error is ever produced. -/
theorem poll_loop_continues_after_canceled :
    acquisition_poll_loop 0
        [⟨OrderStatus.canceled, 7⟩, ⟨OrderStatus.filled, 7⟩] = some 7 ∧
    acquisition_poll_loop 0 [⟨OrderStatus.canceled, 7⟩] = none := by
  exact ⟨by norm_num [acquisition_poll_loop], by decide⟩

/-- **C7** (amended).  On any terminal status other than `Filled` the
acquisition poll loop neither fails nor continues a partial acquisition: it
ignores the response and polls again, so a trace containing no `Filled`
response leaves the loop still polling (and only the `Filled` branch ever
adds to the acquired notional). -/
theorem poll_loop_ignores_non_filled (acquired_notional : ℚ)
    (polls : List FuturesPositionResponse)
    (h : ∀ r ∈ polls, r.status ≠ OrderStatus.filled) :
    acquisition_poll_loop acquired_notional polls = none := by
  induction polls with
  | nil => rfl
  | cons r rest ih =>
    rw [acquisition_poll_loop, if_neg (h r (by simp))]
    exact ih fun x hx => h x (by simp [hx])

/-- Witness for `poll_loop_ignores_non_filled` at a concrete trace of
`Canceled` and `Expired` responses. -/
theorem poll_loop_ignores_non_filled_witness :
    (∀ r ∈ ([⟨OrderStatus.canceled, 5⟩, ⟨OrderStatus.expired, 2⟩] :
        List FuturesPositionResponse), r.status ≠ OrderStatus.filled) ∧
    acquisition_poll_loop 3
        [⟨OrderStatus.canceled, 5⟩, ⟨OrderStatus.expired, 2⟩] = none :=
  ⟨by decide, poll_loop_ignores_non_filled 3 _ (by decide)⟩

/-- **C8.**  The submitted quantity is `size_usdt / current_price` rounded to
the precision's step size: the result is an integer multiple of
`10^(-quantity_precision)` within half a step of the raw quantity, and the
quoted scenario (notional 1000, price 50000, precision 3) yields exactly
`0.020 = 1/50`. -/
theorem acquisition_quantity_rounding (size_usdt current_price : ℚ)
    (quantity_precision : ℕ) (h : 0 ≤ size_usdt / current_price) :
    |coin_quantity_adjusted size_usdt current_price quantity_precision
        - size_usdt / current_price| ≤ 1 / (2 * 10 ^ quantity_precision) ∧
    (∃ n : ℤ, coin_quantity_adjusted size_usdt current_price quantity_precision
        = (n : ℚ) / 10 ^ quantity_precision) ∧
    coin_quantity_adjusted 1000 50000 3 = 1 / 50 := by
  have hf : (0 : ℚ) < 10 ^ quantity_precision := by positivity
  have hx : 0 ≤ size_usdt / current_price * 10 ^ quantity_precision :=
    mul_nonneg h hf.le
  have hrr : rust_round (size_usdt / current_price * 10 ^ quantity_precision)
      = round (size_usdt / current_price * 10 ^ quantity_precision) := by
    rw [rust_round, if_pos hx, round_eq]
  refine ⟨?_, ⟨rust_round (size_usdt / current_price * 10 ^ quantity_precision), rfl⟩, ?_⟩
  case refine_2 => norm_num [coin_quantity_adjusted, rust_round]
  have h1 : coin_quantity_adjusted size_usdt current_price quantity_precision
      = (round (size_usdt / current_price * 10 ^ quantity_precision) : ℚ)
        / 10 ^ quantity_precision := by
    simp only [coin_quantity_adjusted]
    rw [hrr]
  rw [h1]
  have h2 : (round (size_usdt / current_price * 10 ^ quantity_precision) : ℚ)
        / 10 ^ quantity_precision - size_usdt / current_price
      = ((round (size_usdt / current_price * 10 ^ quantity_precision) : ℚ)
          - size_usdt / current_price * 10 ^ quantity_precision) / 10 ^ quantity_precision := by
    field_simp
    ring
  rw [h2, abs_div, abs_of_pos hf]
  have h3 : |(round (size_usdt / current_price * 10 ^ quantity_precision) : ℚ)
      - size_usdt / current_price * 10 ^ quantity_precision| ≤ 1 / 2 := by
    rw [abs_sub_comm]
    exact abs_sub_round (size_usdt / current_price * 10 ^ quantity_precision)
  calc |(round (size_usdt / current_price * 10 ^ quantity_precision) : ℚ)
      - size_usdt / current_price * 10 ^ quantity_precision| / 10 ^ quantity_precision
      ≤ (1 / 2) / 10 ^ quantity_precision := by
        exact (div_le_div_iff_of_pos_right hf).mpr h3
    _ = 1 / (2 * 10 ^ quantity_precision) := by
        rw [div_div]

/-- Witness for `acquisition_quantity_rounding` at the quoted scenario. -/
theorem acquisition_quantity_rounding_witness :
    (0 : ℚ) ≤ 1000 / 50000 ∧
    |coin_quantity_adjusted 1000 50000 3 - 1000 / 50000| ≤ 1 / (2 * 10 ^ 3) ∧
    coin_quantity_adjusted 1000 50000 3 = 1 / 50 :=
  ⟨by norm_num,
   (acquisition_quantity_rounding 1000 50000 3 (by norm_num)).1,
   (acquisition_quantity_rounding 1000 50000 3 (by norm_num)).2.2⟩

/-- **C10.**  `TargetOrders::update_orders` appends the given orders to the
existing order list (so each published list extends the previous one), adds
each order's notional to the per-kind running total, and — when the new
orders' notionals are nonnegative — never decreases any total. -/
theorem update_orders_appends_monotone (t : TargetOrders)
    (new_orders : List ConceptualOrder) :
    (t.update_orders new_orders).1.orders = t.orders ++ new_orders ∧
    (t.update_orders new_orders).2 = t.orders ++ new_orders ∧
    (t.update_orders new_orders).1.stop_orders_total_notional
      = t.stop_orders_total_notional
        + total_notional (new_orders.filter ConceptualOrder.isStop) ∧
    (t.update_orders new_orders).1.normal_orders_total_notional
      = t.normal_orders_total_notional
        + total_notional (new_orders.filter ConceptualOrder.isLimit) ∧
    (t.update_orders new_orders).1.market_orders_total_notional
      = t.market_orders_total_notional
        + total_notional (new_orders.filter ConceptualOrder.isMarket) ∧
    ((∀ o ∈ new_orders, 0 ≤ o.notional) →
      t.stop_orders_total_notional ≤ (t.update_orders new_orders).1.stop_orders_total_notional ∧
      t.normal_orders_total_notional
        ≤ (t.update_orders new_orders).1.normal_orders_total_notional ∧
      t.market_orders_total_notional
        ≤ (t.update_orders new_orders).1.market_orders_total_notional) := by
  obtain ⟨h1, h2, h3, h4⟩ := foldl_add_order_spec new_orders t
  refine ⟨h1, h1, h2, h3, h4, fun hpos => ?_⟩
  have hstop : 0 ≤ total_notional (new_orders.filter ConceptualOrder.isStop) :=
    total_notional_nonneg fun o ho => hpos o (List.mem_of_mem_filter ho)
  have hnorm : 0 ≤ total_notional (new_orders.filter ConceptualOrder.isLimit) :=
    total_notional_nonneg fun o ho => hpos o (List.mem_of_mem_filter ho)
  have hmkt : 0 ≤ total_notional (new_orders.filter ConceptualOrder.isMarket) :=
    total_notional_nonneg fun o ho => hpos o (List.mem_of_mem_filter ho)
  refine ⟨?_, ?_, ?_⟩ <;> simp [TargetOrders.update_orders, h2, h3, h4] <;> linarith

/-- Witness for `update_orders_appends_monotone` at a concrete state and
batch. -/
theorem update_orders_appends_monotone_witness :
    ((⟨5, 0, 0, [ConceptualOrder.market 1 ⟨"BTC", "USDT", Market.binanceFutures⟩ Side.buy 10]⟩ :
        TargetOrders).update_orders
          [ConceptualOrder.stopMarket 2 ⟨"BTC", "USDT", Market.binanceFutures⟩ Side.sell 90 3]).2
      = [ConceptualOrder.market 1 ⟨"BTC", "USDT", Market.binanceFutures⟩ Side.buy 10,
         ConceptualOrder.stopMarket 2 ⟨"BTC", "USDT", Market.binanceFutures⟩ Side.sell 90 3] ∧
    (5 : ℚ)
      ≤ ((⟨5, 0, 0, [ConceptualOrder.market 1 ⟨"BTC", "USDT", Market.binanceFutures⟩ Side.buy 10]⟩ :
          TargetOrders).update_orders
            [ConceptualOrder.stopMarket 2 ⟨"BTC", "USDT", Market.binanceFutures⟩ Side.sell 90 3]).1.stop_orders_total_notional :=
  ⟨(update_orders_appends_monotone _ _).2.1,
   ((update_orders_appends_monotone _ _).2.2.2.2.2 (by decide)).1⟩

/-! ## Permutation and pool-processing lemmas for the reconciliation pass -/

lemma perm_flatten {α : Type} {L1 L2 : List (List α)} (h : L1.Perm L2) :
    L1.flatten.Perm L2.flatten := by
  induction h with
  | nil => simp
  | cons x _ ih => simpa using List.Perm.append_left x ih
  | swap x y l =>
    simp only [List.flatten_cons]
    rw [← List.append_assoc, ← List.append_assoc]
    exact List.Perm.append_right _ List.perm_append_comm
  | trans _ _ ih1 ih2 => exact ih1.trans ih2

lemma perm_pools {u1 u2 : List (String × List ConceptualOrder)} (h : u1.Perm u2) :
    (market_pool u1).Perm (market_pool u2) ∧ (stop_pool u1).Perm (stop_pool u2) ∧
    (limit_pool u1).Perm (limit_pool u2) := by
  have hall : (all_orders_of u1).Perm (all_orders_of u2) := perm_flatten (h.map Prod.snd)
  exact ⟨hall.filter _, hall.filter _, hall.filter _⟩

lemma sort_stop_orders_perm (side : Side) (l : List ConceptualOrder) :
    (sort_stop_orders side l).Perm l := by
  cases side <;> exact List.perm_insertionSort _ _

lemma sort_limit_orders_perm (side : Side) (l : List ConceptualOrder) :
    (sort_limit_orders side l).Perm l := by
  cases side <;> exact List.perm_insertionSort _ _

lemma process_market_pool : ∀ (l : List ConceptualOrder) (st st3 : ReconcileState),
    (∀ o ∈ l, o.isMarket = true) →
    st.left_to_target_spot_notional = st.left_to_target_full_notional →
    st.left_to_target_normal_notional = st.left_to_target_full_notional →
    process_target_orders st l = some st3 →
    st3.new_target_orders = st.new_target_orders ++ l ∧
    st3.left_to_target_spot_notional = st3.left_to_target_full_notional ∧
    st3.left_to_target_normal_notional = st3.left_to_target_full_notional
  | [], st, st3, _, hs, hn, h => by
    rw [process_target_orders] at h
    obtain rfl := Option.some.inj h
    exact ⟨by simp, hs, hn⟩
  | o :: rest, st, st3, hmem, hs, hn, h => by
    rw [process_target_orders] at h
    cases o with
    | limit tag sym sd p n =>
      have := hmem _ (List.mem_cons_self _ _)
      simp [ConceptualOrder.isMarket] at this
    | stopMarket tag sym sd p n =>
      have := hmem _ (List.mem_cons_self _ _)
      simp [ConceptualOrder.isMarket] at this
    | market tag sym sd n =>
      have hred : process_target_order st (ConceptualOrder.market tag sym sd n)
          = if 0 ≤ st.left_to_target_spot_notional - n ∧
                0 ≤ st.left_to_target_normal_notional - n then
              some { left_to_target_full_notional := st.left_to_target_full_notional - n,
                     left_to_target_spot_notional := st.left_to_target_spot_notional - n,
                     left_to_target_normal_notional := st.left_to_target_normal_notional - n,
                     new_target_orders := st.new_target_orders ++
                       [if st.left_to_target_full_notional < n then
                          (ConceptualOrder.market tag sym sd n).cut_size
                            st.left_to_target_full_notional
                        else ConceptualOrder.market tag sym sd n] }
            else none := rfl
      by_cases hguard : 0 ≤ st.left_to_target_spot_notional - n ∧
          0 ≤ st.left_to_target_normal_notional - n
      · have hnoclip : ¬ (st.left_to_target_full_notional < n) := by
          rcases hguard with ⟨hg1, _⟩
          rw [hs] at hg1
          intro hlt
          linarith
        rw [hred, if_pos hguard, if_neg hnoclip, Option.some_bind'] at h
        obtain ⟨ih1, ih2, ih3⟩ := process_market_pool rest _ st3
          (fun x hx => hmem x (by simp [hx]))
          (by dsimp only; rw [hs]) (by dsimp only; rw [hn]) h
        refine ⟨?_, ih2, ih3⟩
        rw [ih1]
        simp
      · rw [hred, if_neg hguard, Option.none_bind'] at h
        exact absurd h (by simp)

lemma process_stop_pool : ∀ (l : List ConceptualOrder) (st st3 : ReconcileState),
    (∀ o ∈ l, o.isStop = true) →
    process_target_orders st l = some st3 →
    st3.new_target_orders = st.new_target_orders ++ l
  | [], st, st3, _, h => by
    rw [process_target_orders] at h
    obtain rfl := Option.some.inj h
    simp
  | o :: rest, st, st3, hmem, h => by
    rw [process_target_orders] at h
    cases o with
    | limit tag sym sd p n =>
      have := hmem _ (List.mem_cons_self _ _)
      simp [ConceptualOrder.isStop] at this
    | market tag sym sd n =>
      have := hmem _ (List.mem_cons_self _ _)
      simp [ConceptualOrder.isStop] at this
    | stopMarket tag sym sd p n =>
      have hred : process_target_order st (ConceptualOrder.stopMarket tag sym sd p n)
          = if 0 ≤ st.left_to_target_spot_notional - n ∧
                0 ≤ st.left_to_target_normal_notional then
              some { left_to_target_full_notional := st.left_to_target_full_notional,
                     left_to_target_spot_notional := st.left_to_target_spot_notional - n,
                     left_to_target_normal_notional := st.left_to_target_normal_notional,
                     new_target_orders := st.new_target_orders ++
                       [if st.left_to_target_spot_notional < n then
                          (ConceptualOrder.stopMarket tag sym sd p n).cut_size
                            st.left_to_target_spot_notional
                        else ConceptualOrder.stopMarket tag sym sd p n] }
            else none := rfl
      by_cases hguard : 0 ≤ st.left_to_target_spot_notional - n ∧
          0 ≤ st.left_to_target_normal_notional
      · have hnoclip : ¬ (st.left_to_target_spot_notional < n) := by
          rcases hguard with ⟨hg1, _⟩
          intro hlt
          linarith
        rw [hred, if_pos hguard, if_neg hnoclip, Option.some_bind'] at h
        have ih := process_stop_pool rest _ st3 (fun x hx => hmem x (by simp [hx])) h
        rw [ih]
        simp
      · rw [hred, if_neg hguard, Option.none_bind'] at h
        exact absurd h (by simp)

lemma process_limit_pool : ∀ (l : List ConceptualOrder) (st st3 : ReconcileState),
    (∀ o ∈ l, o.isLimit = true) →
    process_target_orders st l = some st3 →
    st3.new_target_orders = st.new_target_orders ++ l
  | [], st, st3, _, h => by
    rw [process_target_orders] at h
    obtain rfl := Option.some.inj h
    simp
  | o :: rest, st, st3, hmem, h => by
    rw [process_target_orders] at h
    cases o with
    | stopMarket tag sym sd p n =>
      have := hmem _ (List.mem_cons_self _ _)
      simp [ConceptualOrder.isLimit] at this
    | market tag sym sd n =>
      have := hmem _ (List.mem_cons_self _ _)
      simp [ConceptualOrder.isLimit] at this
    | limit tag sym sd p n =>
      have hred : process_target_order st (ConceptualOrder.limit tag sym sd p n)
          = if 0 ≤ st.left_to_target_spot_notional ∧
                0 ≤ st.left_to_target_normal_notional - n then
              some { left_to_target_full_notional := st.left_to_target_full_notional,
                     left_to_target_spot_notional := st.left_to_target_spot_notional,
                     left_to_target_normal_notional := st.left_to_target_normal_notional - n,
                     new_target_orders := st.new_target_orders ++
                       [if st.left_to_target_normal_notional < n then
                          (ConceptualOrder.limit tag sym sd p n).cut_size
                            st.left_to_target_normal_notional
                        else ConceptualOrder.limit tag sym sd p n] }
            else none := rfl
      by_cases hguard : 0 ≤ st.left_to_target_spot_notional ∧
          0 ≤ st.left_to_target_normal_notional - n
      · have hnoclip : ¬ (st.left_to_target_normal_notional < n) := by
          rcases hguard with ⟨_, hg2⟩
          intro hlt
          linarith
        rw [hred, if_pos hguard, if_neg hnoclip, Option.some_bind'] at h
        have ih := process_limit_pool rest _ st3 (fun x hx => hmem x (by simp [hx])) h
        rw [ih]
        simp
      · rw [hred, if_neg hguard, Option.none_bind'] at h
        exact absurd h (by simp)

lemma update_target_orders_structure (side : Side) (acquired_notional closed_notional : ℚ)
    (u : List (String × List ConceptualOrder)) (out : List ConceptualOrder)
    (h : update_target_orders side acquired_notional closed_notional u = some out) :
    out = market_pool u ++ sort_stop_orders side (stop_pool u)
      ++ sort_limit_orders side (limit_pool u) := by
  rw [update_target_orders] at h
  cases h1 : process_target_orders (initial_reconcile_state acquired_notional closed_notional)
      (market_pool u) with
  | none => rw [h1, Option.none_bind'] at h; exact absurd h (by simp)
  | some st1 =>
    rw [h1, Option.some_bind'] at h
    cases h2 : process_target_orders st1 (sort_stop_orders side (stop_pool u)) with
    | none => rw [h2, Option.none_bind'] at h; exact absurd h (by simp)
    | some st2 =>
      rw [h2, Option.some_bind'] at h
      cases h3 : process_target_orders st2 (sort_limit_orders side (limit_pool u)) with
      | none => rw [h3] at h; exact absurd h (by simp)
      | some st3 =>
        rw [h3] at h
        simp only [Option.map_some'] at h
        obtain rfl := Option.some.inj h
        obtain ⟨hm1, _, _⟩ := process_market_pool (market_pool u) _ st1
          (fun o ho => List.of_mem_filter ho) rfl rfl h1
        have hs1 := process_stop_pool (sort_stop_orders side (stop_pool u)) st1 st2
          (fun o ho =>
            List.of_mem_filter ((sort_stop_orders_perm side (stop_pool u)).mem_iff.mp ho)) h2
        have hl1 := process_limit_pool (sort_limit_orders side (limit_pool u)) st2 st3
          (fun o ho =>
            List.of_mem_filter ((sort_limit_orders_perm side (limit_pool u)).mem_iff.mp ho)) h3
        rw [hl1, hs1, hm1]
        simp [initial_reconcile_state]

/-- **C5** (counterexample).  A single recompute pass over the same two
producer batches enumerated in the two possible orders yields two different
`TargetOrderSet` order vectors (the market pool keeps enumeration order), so
the output is not "the same regardless of the order in which producers'
batches arrived or are enumerated". -/
theorem enumeration_order_changes_output :
    update_target_orders Side.buy 100 0
        [("A", [ConceptualOrder.market 1 ⟨"BTC", "USDT", Market.binanceFutures⟩ Side.buy 10]),
         ("B", [ConceptualOrder.market 2 ⟨"BTC", "USDT", Market.binanceFutures⟩ Side.buy 20])]
      = some [ConceptualOrder.market 1 ⟨"BTC", "USDT", Market.binanceFutures⟩ Side.buy 10,
              ConceptualOrder.market 2 ⟨"BTC", "USDT", Market.binanceFutures⟩ Side.buy 20] ∧
    update_target_orders Side.buy 100 0
        [("B", [ConceptualOrder.market 2 ⟨"BTC", "USDT", Market.binanceFutures⟩ Side.buy 20]),
         ("A", [ConceptualOrder.market 1 ⟨"BTC", "USDT", Market.binanceFutures⟩ Side.buy 10])]
      = some [ConceptualOrder.market 2 ⟨"BTC", "USDT", Market.binanceFutures⟩ Side.buy 20,
              ConceptualOrder.market 1 ⟨"BTC", "USDT", Market.binanceFutures⟩ Side.buy 10] ∧
    ([ConceptualOrder.market 1 ⟨"BTC", "USDT", Market.binanceFutures⟩ Side.buy 10,
      ConceptualOrder.market 2 ⟨"BTC", "USDT", Market.binanceFutures⟩ Side.buy 20] :
        List ConceptualOrder)
      ≠ [ConceptualOrder.market 2 ⟨"BTC", "USDT", Market.binanceFutures⟩ Side.buy 20,
         ConceptualOrder.market 1 ⟨"BTC", "USDT", Market.binanceFutures⟩ Side.buy 10] := by
  refine ⟨?_, ?_, by decide⟩ <;>
  norm_num [update_target_orders, market_pool, stop_pool, limit_pool, all_orders_of,
    initial_reconcile_state, process_target_orders, process_target_order, compare_against,
    subtract_notional, sort_stop_orders, sort_limit_orders, List.insertionSort,
    List.orderedInsert, price_descending, price_ascending, priceD, ConceptualOrder.notional,
    ConceptualOrder.price, ConceptualOrder.cut_size, ConceptualOrder.isMarket,
    ConceptualOrder.isStop, ConceptualOrder.isLimit, Option.bind]

/-- **C5** (amended).  For a fixed enumeration order of the batch map the pass
is a pure function of its inputs, and any two enumerations of the same batches
whose passes both complete produce the same *multiset* of orders — but only up
to permutation: the output vector's order follows the enumeration (see the
counterexample), so the produced `TargetOrderSet` is not literally "the same"
across enumerations. -/
theorem pass_output_perm_invariant (side : Side) (acquired_notional closed_notional : ℚ)
    (u1 u2 : List (String × List ConceptualOrder)) (out1 out2 : List ConceptualOrder)
    (hperm : u1.Perm u2)
    (h1 : update_target_orders side acquired_notional closed_notional u1 = some out1)
    (h2 : update_target_orders side acquired_notional closed_notional u2 = some out2) :
    out1.Perm out2 := by
  obtain ⟨hm, hs, hl⟩ := perm_pools hperm
  rw [update_target_orders_structure side acquired_notional closed_notional u1 out1 h1,
      update_target_orders_structure side acquired_notional closed_notional u2 out2 h2]
  have hsp : (sort_stop_orders side (stop_pool u1)).Perm (sort_stop_orders side (stop_pool u2)) :=
    (sort_stop_orders_perm side (stop_pool u1)).trans
      (hs.trans (sort_stop_orders_perm side (stop_pool u2)).symm)
  have hlp : (sort_limit_orders side (limit_pool u1)).Perm
      (sort_limit_orders side (limit_pool u2)) :=
    (sort_limit_orders_perm side (limit_pool u1)).trans
      (hl.trans (sort_limit_orders_perm side (limit_pool u2)).symm)
  exact (hm.append hsp).append hlp

/-- Witness for `pass_output_perm_invariant` at the two-producer market-order
input of the counterexample: the two outputs are permutations of each other. -/
theorem pass_output_perm_invariant_witness :
    ([("A", [ConceptualOrder.market 1 ⟨"BTC", "USDT", Market.binanceFutures⟩ Side.buy 10]),
      ("B", [ConceptualOrder.market 2 ⟨"BTC", "USDT", Market.binanceFutures⟩ Side.buy 20])] :
        List (String × List ConceptualOrder)).Perm
      [("B", [ConceptualOrder.market 2 ⟨"BTC", "USDT", Market.binanceFutures⟩ Side.buy 20]),
       ("A", [ConceptualOrder.market 1 ⟨"BTC", "USDT", Market.binanceFutures⟩ Side.buy 10])] ∧
    ([ConceptualOrder.market 1 ⟨"BTC", "USDT", Market.binanceFutures⟩ Side.buy 10,
      ConceptualOrder.market 2 ⟨"BTC", "USDT", Market.binanceFutures⟩ Side.buy 20] :
        List ConceptualOrder).Perm
      [ConceptualOrder.market 2 ⟨"BTC", "USDT", Market.binanceFutures⟩ Side.buy 20,
       ConceptualOrder.market 1 ⟨"BTC", "USDT", Market.binanceFutures⟩ Side.buy 10] :=
  ⟨List.Perm.swap _ _ _,
   pass_output_perm_invariant Side.buy 100 0
     [("A", [ConceptualOrder.market 1 ⟨"BTC", "USDT", Market.binanceFutures⟩ Side.buy 10]),
      ("B", [ConceptualOrder.market 2 ⟨"BTC", "USDT", Market.binanceFutures⟩ Side.buy 20])]
     [("B", [ConceptualOrder.market 2 ⟨"BTC", "USDT", Market.binanceFutures⟩ Side.buy 20]),
      ("A", [ConceptualOrder.market 1 ⟨"BTC", "USDT", Market.binanceFutures⟩ Side.buy 10])]
     [ConceptualOrder.market 1 ⟨"BTC", "USDT", Market.binanceFutures⟩ Side.buy 10,
      ConceptualOrder.market 2 ⟨"BTC", "USDT", Market.binanceFutures⟩ Side.buy 20]
     [ConceptualOrder.market 2 ⟨"BTC", "USDT", Market.binanceFutures⟩ Side.buy 20,
      ConceptualOrder.market 1 ⟨"BTC", "USDT", Market.binanceFutures⟩ Side.buy 10]
     (List.Perm.swap _ _ _)
     (by norm_num [update_target_orders, market_pool, stop_pool, limit_pool, all_orders_of,
        initial_reconcile_state, process_target_orders, process_target_order, compare_against,
        subtract_notional, sort_stop_orders, sort_limit_orders, List.insertionSort,
        List.orderedInsert, price_descending, price_ascending, priceD, ConceptualOrder.notional,
        ConceptualOrder.price, ConceptualOrder.cut_size, ConceptualOrder.isMarket,
        ConceptualOrder.isStop, ConceptualOrder.isLimit, Option.bind])
     (by norm_num [update_target_orders, market_pool, stop_pool, limit_pool, all_orders_of,
        initial_reconcile_state, process_target_orders, process_target_order, compare_against,
        subtract_notional, sort_stop_orders, sort_limit_orders, List.insertionSort,
        List.orderedInsert, price_descending, price_ascending, priceD, ConceptualOrder.notional,
        ConceptualOrder.price, ConceptualOrder.cut_size, ConceptualOrder.isMarket,
        ConceptualOrder.isStop, ConceptualOrder.isLimit, Option.bind])⟩

/-- Witness for `recompute_publish_accumulates` at the concrete
one-market-order input of the counterexample. -/
theorem recompute_publish_accumulates_witness :
    update_target_orders Side.buy 100 0
        [("A", [ConceptualOrder.market 1 ⟨"BTC", "USDT", Market.binanceFutures⟩ Side.buy 10])]
      = some [ConceptualOrder.market 1 ⟨"BTC", "USDT", Market.binanceFutures⟩ Side.buy 10] ∧
    (recompute_publish Side.buy 100 0
        [("A", [ConceptualOrder.market 1 ⟨"BTC", "USDT", Market.binanceFutures⟩ Side.buy 10])]
        ⟨0, 0, 0, []⟩).map Prod.snd
      = some [ConceptualOrder.market 1 ⟨"BTC", "USDT", Market.binanceFutures⟩ Side.buy 10] := by
  have hpass : update_target_orders Side.buy 100 0
      [("A", [ConceptualOrder.market 1 ⟨"BTC", "USDT", Market.binanceFutures⟩ Side.buy 10])]
      = some [ConceptualOrder.market 1 ⟨"BTC", "USDT", Market.binanceFutures⟩ Side.buy 10] := by
    norm_num [update_target_orders, market_pool, stop_pool, limit_pool, all_orders_of,
      initial_reconcile_state, process_target_orders, process_target_order, compare_against,
      subtract_notional, sort_stop_orders, sort_limit_orders, List.insertionSort,
      List.orderedInsert, price_descending, price_ascending, priceD, ConceptualOrder.notional,
      ConceptualOrder.price, ConceptualOrder.cut_size, ConceptualOrder.isMarket,
      ConceptualOrder.isStop, ConceptualOrder.isLimit, Option.bind]
  exact ⟨hpass, (recompute_publish_accumulates Side.buy 100 0 _ ⟨0, 0, 0, []⟩ _ hpass).1⟩

/-- **C9.**  Trailing stop: the cache seeds both running extremes with the
current market price; a price event strictly below the running low on a Sell
position replaces the live orders with the single stop-market buy at
`low + low * percent` (the new low); symmetrically a price strictly above the
running high on a Buy position replaces them with the single stop-market sell
at `high - high * percent`; and a step never leaves more than one live order
per instance. -/
theorem trailing_stop_behavior :
    (∀ (position_core : PositionSpec) (current_price : ℚ),
      (TrailingStopCache.build position_core current_price).top = current_price ∧
      (TrailingStopCache.build position_core current_price).bottom = current_price) ∧
    (∀ (ts : TrailingStop) (price : ℚ) (cache : TrailingStopCache)
        (orders : List StopMarketWhere),
      price < cache.bottom → cache.bottom ≤ cache.top →
      ts.handle_price Side.sell cache orders price
        = ({ cache with bottom := price },
           [{ symbol := cache.symbol, side := Side.buy,
              price := price + price * ts.percent }])) ∧
    (∀ (ts : TrailingStop) (price : ℚ) (cache : TrailingStopCache)
        (orders : List StopMarketWhere),
      cache.top < price → cache.bottom ≤ cache.top →
      ts.handle_price Side.buy cache orders price
        = ({ cache with top := price },
           [{ symbol := cache.symbol, side := Side.sell,
              price := price - price * ts.percent }])) ∧
    (∀ (ts : TrailingStop) (side : Side) (price : ℚ) (cache : TrailingStopCache)
        (orders : List StopMarketWhere),
      orders.length ≤ 1 → ((ts.handle_price side cache orders price).2).length ≤ 1) := by
  refine ⟨fun position_core current_price => ⟨rfl, rfl⟩, ?_, ?_, ?_⟩
  · intro ts price cache orders h1 h2
    have hnt : ¬ (cache.top < price) := not_lt.mpr (le_trans h1.le h2)
    simp [TrailingStop.handle_price, h1, hnt]
  · intro ts price cache orders h1 h2
    have hnb : ¬ (price < cache.bottom) := not_lt.mpr (le_trans h2 h1.le)
    simp [TrailingStop.handle_price, h1, hnb]
  · intro ts side price cache orders hlen
    rcases side <;> dsimp only [TrailingStop.handle_price] <;> split_ifs <;> simp_all

/-- Witness for `trailing_stop_behavior` at a concrete cache and price
events on both sides. -/
theorem trailing_stop_behavior_witness :
    (TrailingStopCache.build ⟨"BTC", Side.sell, 1000⟩ 100).top = 100 ∧
    ((90 : ℚ) < 100 ∧ (100 : ℚ) ≤ 100) ∧
    TrailingStop.handle_price ⟨1/10⟩ Side.sell
        ⟨⟨"BTC", "USDT", Market.binanceFutures⟩, 100, 100⟩ [] 90
      = (⟨⟨"BTC", "USDT", Market.binanceFutures⟩, 100, 90⟩,
         [{ symbol := ⟨"BTC", "USDT", Market.binanceFutures⟩, side := Side.buy,
            price := 90 + 90 * (1/10) }]) ∧
    TrailingStop.handle_price ⟨1/10⟩ Side.buy
        ⟨⟨"BTC", "USDT", Market.binanceFutures⟩, 100, 100⟩ [] 110
      = (⟨⟨"BTC", "USDT", Market.binanceFutures⟩, 110, 100⟩,
         [{ symbol := ⟨"BTC", "USDT", Market.binanceFutures⟩, side := Side.sell,
            price := 110 - 110 * (1/10) }]) :=
  ⟨(trailing_stop_behavior.1 ⟨"BTC", Side.sell, 1000⟩ 100).1,
   ⟨by norm_num, by norm_num⟩,
   trailing_stop_behavior.2.1 ⟨1/10⟩ 90
     ⟨⟨"BTC", "USDT", Market.binanceFutures⟩, 100, 100⟩ [] (by norm_num) (by norm_num),
   trailing_stop_behavior.2.2.1 ⟨1/10⟩ 110
     ⟨⟨"BTC", "USDT", Market.binanceFutures⟩, 100, 100⟩ [] (by norm_num) (by norm_num)⟩

/-! ## Budget-splitting lemmas (claim C6) -/

lemma to_exact_notional (o : ConceptualOrderPercents) (n : ℚ) :
    (o.to_exact n).notional = n := by
  cases o <;> rfl

lemma lookup_entry_mem : ∀ (l : List (ℕ × ℚ)) (k : ℕ) (v : ℚ),
    l.lookup k = some v → (k, v) ∈ l
  | [], k, v, h => by simp [List.lookup] at h
  | (k1, v1) :: rest, k, v, h => by
    rw [List.lookup] at h
    split at h
    · obtain rfl := Option.some.inj h
      rename_i hbeq
      have : k = k1 := by simpa using hbeq
      subst this
      exact List.mem_cons_self _ _
    · exact List.mem_cons_of_mem _ (lookup_entry_mem rest k v h)

lemma lookup_getD_nonneg (l : List (ℕ × ℚ)) (hf : ∀ kv ∈ l, 0 ≤ kv.2) (k : ℕ) :
    0 ≤ (l.lookup k).getD 0 := by
  cases hl : l.lookup k with
  | none => simp
  | some v => simpa using hf (k, v) (lookup_entry_mem l k v hl)

lemma update_unrolled_mask_nonneg (po : ProtocolOrders) (all_fills : List (ℕ × ℚ))
    (hf : ∀ kv ∈ all_fills, 0 ≤ kv.2) :
    ∀ kv ∈ (po.empty_mask.map fun kv =>
      match all_fills.lookup kv.1 with
      | some v => (kv.1, v)
      | none => kv), 0 ≤ kv.2 := by
  intro kv hkv
  rw [List.mem_map] at hkv
  obtain ⟨kv0, hkv0, rfl⟩ := hkv
  cases hl : all_fills.lookup kv0.1 with
  | some v =>
    simp only [hl]
    exact hf (kv0.1, v) (lookup_entry_mem all_fills kv0.1 v hl)
  | none =>
    simp only [hl]
    rw [ProtocolOrders.empty_mask, List.mem_map] at hkv0
    obtain ⟨o, _, rfl⟩ := hkv0
    norm_num

lemma apply_mask_total_bound (po : ProtocolOrders) (mask : List (ℕ × ℚ)) (total : ℚ)
    (hm : ∀ kv ∈ mask, 0 ≤ kv.2) (ht : 0 ≤ total)
    (h0 : ∀ o ∈ po.orders, 0 ≤ o.percent_size) :
    total_notional (po.apply_mask mask total)
      ≤ (po.orders.map ConceptualOrderPercents.percent_size).sum * total := by
  obtain ⟨pid, orders⟩ := po
  induction orders with
  | nil => simp [ProtocolOrders.apply_mask, total_notional]
  | cons o rest ih =>
    have hrest := ih fun x hx => h0 x (by simp [hx])
    have ho := h0 o (by simp)
    have hfill : 0 ≤ (mask.lookup o.uuid).getD 0 := lookup_getD_nonneg mask hm o.uuid
    have hpt : 0 ≤ o.percent_size * total := mul_nonneg ho ht
    simp only [ProtocolOrders.apply_mask, List.filterMap_cons] at hrest ⊢
    by_cases hc : o.percent_size * total - (mask.lookup o.uuid).getD 0 ≤ 0
    · rw [if_pos hc]
      simp only [List.map_cons, List.sum_cons]
      have hexp : (o.percent_size + (rest.map ConceptualOrderPercents.percent_size).sum) * total
          = o.percent_size * total
            + (rest.map ConceptualOrderPercents.percent_size).sum * total := by ring
      rw [hexp]
      linarith
    · rw [if_neg hc]
      rw [total_notional_cons, to_exact_notional]
      simp only [List.map_cons, List.sum_cons]
      have hexp : (o.percent_size + (rest.map ConceptualOrderPercents.percent_size).sum) * total
          = o.percent_size * total
            + (rest.map ConceptualOrderPercents.percent_size).sum * total := by ring
      rw [hexp]
      linarith

lemma list_sum_le_of_bound {α : Type} : ∀ (l : List α) (f : α → ℚ) (c : ℚ),
    (∀ x ∈ l, f x ≤ c) → (l.map f).sum ≤ (l.length : ℚ) * c
  | [], f, c, _ => by simp
  | x :: rest, f, c, h => by
    have ih := list_sum_le_of_bound rest f c fun y hy => h y (by simp [hy])
    have hx := h x (by simp)
    simp only [List.map_cons, List.sum_cons, List.length_cons]
    push_cast
    linarith

/-- **C6.**  Each attached instance's batch is scaled against a controlled
notional of exactly `acquired_notional / k` where `k` counts its subtype's
concurrently attached instances, and — whenever each batch's percent sizes are
nonnegative and sum to at most one, and recorded fills are nonnegative — the
total notional allocated across all instances of a subtype never exceeds
`acquired_notional`. -/
theorem subtype_budget_split (protocols : List FollowupProtocol) (T : ProtocolType)
    (acquired_notional : ℚ) (batches : FollowupProtocol → ProtocolOrders)
    (all_fills : List (ℕ × ℚ)) (hA : 0 ≤ acquired_notional)
    (hpct : ∀ p : FollowupProtocol,
      ((batches p).orders.map ConceptualOrderPercents.percent_size).sum ≤ 1)
    (hpct0 : ∀ p : FollowupProtocol, ∀ o ∈ (batches p).orders, 0 ≤ o.percent_size)
    (hfill : ∀ kv ∈ all_fills, 0 ≤ kv.2) :
    (∀ p : FollowupProtocol,
      total_controlled_size protocols acquired_notional p.subtype
        = acquired_notional / (counted_subtypes protocols p.subtype : ℚ)) ∧
    ((protocols.filter fun p => p.subtype = T).map fun p =>
        total_notional
          (update_unrolled protocols acquired_notional all_fills p (batches p))).sum
      ≤ acquired_notional := by
  constructor
  · intro p
    rw [total_controlled_size, mul_one_div]
  · have hk : counted_subtypes protocols T
        = (protocols.filter fun p => p.subtype = T).length := rfl
    have hts : 0 ≤ acquired_notional
        * (1 / ((protocols.filter fun p => p.subtype = T).length : ℚ)) := by positivity
    have hbound : ∀ p ∈ (protocols.filter fun p => p.subtype = T),
        total_notional (update_unrolled protocols acquired_notional all_fills p (batches p))
          ≤ acquired_notional
            * (1 / ((protocols.filter fun p => p.subtype = T).length : ℚ)) := by
      intro p hp
      have hsub : p.subtype = T := by
        have := (List.mem_filter.mp hp).2
        exact of_decide_eq_true this
      have hts_eq : total_controlled_size protocols acquired_notional p.subtype
          = acquired_notional
            * (1 / ((protocols.filter fun p => p.subtype = T).length : ℚ)) := by
        rw [hsub, total_controlled_size, hk]
      have hts0 : 0 ≤ total_controlled_size protocols acquired_notional p.subtype := by
        rw [hts_eq]
        exact hts
      have hun : update_unrolled protocols acquired_notional all_fills p (batches p)
          = (batches p).apply_mask
              ((batches p).empty_mask.map fun kv =>
                match all_fills.lookup kv.1 with
                | some v => (kv.1, v)
                | none => kv)
              (total_controlled_size protocols acquired_notional p.subtype) := rfl
      rw [hun]
      have h1 := apply_mask_total_bound (batches p) _ _
        (update_unrolled_mask_nonneg (batches p) all_fills hfill) hts0 (hpct0 p)
      refine le_trans h1 ?_
      calc ((batches p).orders.map ConceptualOrderPercents.percent_size).sum
            * total_controlled_size protocols acquired_notional p.subtype
          ≤ 1 * total_controlled_size protocols acquired_notional p.subtype :=
            mul_le_mul_of_nonneg_right (hpct p) hts0
        _ = total_controlled_size protocols acquired_notional p.subtype := one_mul _
        _ = acquired_notional
            * (1 / ((protocols.filter fun p => p.subtype = T).length : ℚ)) := hts_eq
    have hsum := list_sum_le_of_bound (protocols.filter fun p => p.subtype = T) _ _ hbound
    rcases Nat.eq_zero_or_pos (protocols.filter fun p => p.subtype = T).length with hz | hpos
    · rw [List.length_eq_zero] at hz
      rw [hz]
      simpa using hA
    · have hlen : (((protocols.filter fun p => p.subtype = T).length : ℚ)) ≠ 0 := by
        exact_mod_cast Nat.pos_iff_ne_zero.mp hpos
      have hfin : (((protocols.filter fun p => p.subtype = T).length : ℚ))
          * (acquired_notional
              * (1 / ((protocols.filter fun p => p.subtype = T).length : ℚ)))
          = acquired_notional := by
        field_simp
      linarith

/-- Witness for `subtype_budget_split`: two momentum instances sharing an
acquired notional of 100, each with a single half-size stop order and no
fills. -/
theorem subtype_budget_split_witness :
    total_controlled_size
        [⟨"ts:p0.5", ProtocolType.momentum⟩, ⟨"ts:p0.3", ProtocolType.momentum⟩] 100
        ProtocolType.momentum
      = 100 / (counted_subtypes
          [⟨"ts:p0.5", ProtocolType.momentum⟩, ⟨"ts:p0.3", ProtocolType.momentum⟩]
          ProtocolType.momentum : ℚ) ∧
    ((([⟨"ts:p0.5", ProtocolType.momentum⟩, ⟨"ts:p0.3", ProtocolType.momentum⟩] :
        List FollowupProtocol).filter fun p => p.subtype = ProtocolType.momentum).map fun p =>
        total_notional
          (update_unrolled
            [⟨"ts:p0.5", ProtocolType.momentum⟩, ⟨"ts:p0.3", ProtocolType.momentum⟩] 100 [] p
            ⟨"ts", [ConceptualOrderPercents.stopMarket 1
              ⟨"BTC", "USDT", Market.binanceFutures⟩ Side.sell 90 (1/2)]⟩)).sum
      ≤ 100 := by
  have h := subtype_budget_split
    [⟨"ts:p0.5", ProtocolType.momentum⟩, ⟨"ts:p0.3", ProtocolType.momentum⟩]
    ProtocolType.momentum 100
    (fun _ => ⟨"ts", [ConceptualOrderPercents.stopMarket 1
      ⟨"BTC", "USDT", Market.binanceFutures⟩ Side.sell 90 (1/2)]⟩)
    [] (by norm_num)
    (by
      intro p
      norm_num [ConceptualOrderPercents.percent_size])
    (by
      intro p o ho
      simp only [List.mem_singleton] at ho
      subst ho
      norm_num [ConceptualOrderPercents.percent_size])
    (by
      intro kv hkv
      simp at hkv)
  exact ⟨h.1 ⟨"ts:p0.5", ProtocolType.momentum⟩, h.2⟩

end DiscEngine
